import Mathlib

/-!
Verification development for the Kafka telemetry exporter
(`src/exporter/exporter.go`).  The Go source is shallowly embedded:

* machine `int64` offsets become `Int` (no overflow-relevant arithmetic
  occurs in the modelled code paths: only comparisons, subtractions of
  nearby offsets, and millisecond timestamps);
* `float64` lag arithmetic is modelled over `ℚ`;
* wall-clock instants are modelled as integer milliseconds, matching the
  code's use of `UnixNano()/1000000` and `Sub(..).Milliseconds()`;
* Go maps are modelled as association lists (Go map iteration order is
  unspecified, and the modelled code either sorts the keys or is
  insensitive to order up to metric multiset);
* each fallible RPC result is an `Option` field of an environment record.
-/

namespace KafkaExporter

/-! ## Lag-bound search (`getNextHigherOffset` / `getNextLowerOffset`)

Direct translations of the two loops at `exporter.go:779-804`.  Both Go
loops carry an accumulator (`max` resp. `min`) that is re-assigned from
`offsets[index]` *before* the index moves, so the accumulator lags one
position behind the scanning index from the second iteration on.  The
translations reproduce this exactly. -/

/-- Loop body of `getNextHigherOffset` (`exporter.go:783-789`).
State: `index` (the Go `index`, scanned downwards, used as the structural
recursion measure) and `mx` (the Go `max`).  `offsets.getD i 0` models the
Go indexing `offsets[i]` (callers keep indices in bounds). -/
def nextHigherGo (offsets : List Int) (k : Int) : Nat → Int → Int
  | 0, mx => mx
  | index + 1, mx =>
    if k ≤ mx then
      if offsets.getD index 0 < k then mx
      else nextHigherGo offsets k index (offsets.getD (index + 1) 0)
    else mx

/-- `getNextHigherOffset(offsets []int64, k int64) int64` (`exporter.go:779-791`):
`index := len(offsets)-1; max := offsets[index]`, then the scan loop. -/
def getNextHigherOffset (offsets : List Int) (k : Int) : Int :=
  nextHigherGo offsets k (offsets.length - 1) (offsets.getD (offsets.length - 1) 0)

/-- Loop body of `getNextLowerOffset` (`exporter.go:796-802`).
State: `fuel = len(offsets) - 1 - index` (the loop guard `index < len-1`
becomes `fuel > 0`), `index` (the Go `index`, scanned upwards) and `mn`
(the Go `min`). -/
def nextLowerGo (offsets : List Int) (k : Int) : Nat → Nat → Int → Int
  | 0, _, mn => mn
  | fuel + 1, index, mn =>
    if mn ≤ k then
      if k < offsets.getD (index + 1) 0 then mn
      else nextLowerGo offsets k fuel (index + 1) (offsets.getD index 0)
    else mn

/-- `getNextLowerOffset(offsets []int64, k int64) int64` (`exporter.go:793-804`):
`index := 0; min := offsets[index]`, then the scan loop. -/
def getNextLowerOffset (offsets : List Int) (k : Int) : Int :=
  nextLowerGo offsets k (offsets.length - 1) 0 (offsets.getD 0 0)

/-- Bound described by the spec's words for `D`: the largest sampled offset
strictly below `c` (refinement reference, to be compared with
`getNextLowerOffset`). -/
def specNextLowerOffset (offsets : List Int) (c : Int) : Option Int :=
  (offsets.filter (fun p => decide (p < c))).getLast?

/-- Bound described by the spec's words for `U`: the smallest sampled offset
at or above `c` (refinement reference, to be compared with
`getNextHigherOffset`). -/
def specNextHigherOffset (offsets : List Int) (c : Int) : Option Int :=
  (offsets.filter (fun p => decide (c ≤ p))).head?

/-! ## Lag estimation (`metricsForLag` per-key body, `exporter.go:727-773`) -/

/-- Which estimation branch the lag pass took for a key. -/
inductive LagMethod where
  | interpolation
  | extrapolation
deriving DecidableEq

/-- One per-key result of the lag estimation pass: the indicator counter
emitted (`method`) and the `lagMillis` gauge value emitted with it. -/
structure LagEstimate where
  method : LagMethod
  lagMillis : ℚ
deriving DecidableEq

/-- Observation instant (in ms) of a produced offset in the per-key sample
map `offsets map[int64]time.Time`, modelled as an association list with
distinct keys.  Models `offsets[o].UnixNano()/1000000` with instants kept
in integer milliseconds. -/
def timeOf (samples : List (Int × Int)) (o : Int) : Int :=
  match samples.find? (fun s => s.1 == o) with
  | some s => s.2
  | none => 0

/-- The px computation shared by both branches (`exporter.go:749-751` and
`762-764`): `t(U) − (U − c)·(t(U) − t(D))/(U − D)`, with `float64`
arithmetic modelled over `ℚ` and `Sub(..).Milliseconds()` as integer
subtraction of millisecond instants. -/
def pxEstimate (tU tD : Int) (U D c : Int) : ℚ :=
  (tU : ℚ) - ((U - c : Int) : ℚ) * ((tU - tD : Int) : ℚ) / ((U - D : Int) : ℚ)

/-- The sorted produced-offset keys (`sort.Slice(producedOffsets, ...)` at
`exporter.go:742`, modelled by an ascending comparison sort). -/
def producedOffsetsOf (samples : List (Int × Int)) : List Int :=
  List.insertionSort (· ≤ ·) (samples.map Prod.fst)

/-- Per-(group, topic, partition) body of `metricsForLag`
(`exporter.go:727-773`): fewer than two samples → no emission
(`continue`); a missing latest consumed offset → no emission; committed
offset below the smallest sample → extrapolation from the highest and
lowest samples; otherwise interpolation from the
`getNextHigherOffset`/`getNextLowerOffset` bounds.  `nowMs` models
`time.Now().UnixNano()/1000000` at estimator entry. -/
def metricsForLagPartition (samples : List (Int × Int)) (latestConsumed : Option Int)
    (nowMs : Int) : Option LagEstimate :=
  if samples.length < 2 then none
  else
    match latestConsumed with
    | none => none
    | some c =>
      let produced := producedOffsetsOf samples
      if c < produced.getD 0 0 then
        let highestOffset := produced.getD (produced.length - 1) 0
        let lowestOffset := produced.getD 0 0
        some ⟨LagMethod.extrapolation,
          (nowMs : ℚ) - pxEstimate (timeOf samples highestOffset) (timeOf samples lowestOffset)
            highestOffset lowestOffset c⟩
      else
        let nextHigher := getNextHigherOffset produced c
        let nextLower := getNextLowerOffset produced c
        some ⟨LagMethod.interpolation,
          (nowMs : ℚ) - pxEstimate (timeOf samples nextHigher) (timeOf samples nextLower)
            nextHigher nextLower c⟩

/-! ## Pruner (`RunPruner`, `exporter.go:810-828`) -/

/-- Result of the per-tick `sarama.NewClient` construction.  On success
the tick prunes the timeline; the `interpolationMap.Prune` implementation
is outside `src/`, so the prune effect of a tick is an abstract timeline
function.  On failure the code logs the error. -/
inductive TickResult (T : Type) where
  | ok (pruneFn : T → T)
  | fail

/-- Events consumed by the pruner's `select` loop: the ticker fires, or
the quit channel is signalled. -/
inductive PrunerEvent (T : Type) where
  | tick (r : TickResult T)
  | quit

/-- Which `return` ended the pruner loop. -/
inductive PrunerExit where
  | quitSignal
  | clientError
deriving DecidableEq

/-- Pruner loop state: still inside the `for`/`select` loop, or returned
(with the timeline as it stood at that point). -/
inductive PrunerState (T : Type) where
  | running (timeline : T)
  | stopped (timeline : T) (why : PrunerExit)
deriving DecidableEq

/-- One `select` round of `RunPruner` (`exporter.go:813-827`): a tick with
a working client runs `Prune` and closes the client; a tick whose client
construction fails logs and `return`s (`exporter.go:817-819`); quit stops
the ticker and `return`s; after a `return` no further event is
processed. -/
def prunerStep {T : Type} : PrunerState T → PrunerEvent T → PrunerState T
  | PrunerState.running tl, PrunerEvent.tick (TickResult.ok f) => PrunerState.running (f tl)
  | PrunerState.running tl, PrunerEvent.tick TickResult.fail =>
      PrunerState.stopped tl PrunerExit.clientError
  | PrunerState.running tl, PrunerEvent.quit => PrunerState.stopped tl PrunerExit.quitSignal
  | PrunerState.stopped tl w, _ => PrunerState.stopped tl w

/-- `RunPruner` run over a finite schedule of events, starting from the
timeline `tl`. -/
def runPruner {T : Type} (tl : T) (evts : List (PrunerEvent T)) : PrunerState T :=
  evts.foldl prunerStep (PrunerState.running tl)

/-! ## Scrape coalescer (`Collect`/`collectChans`, `exporter.go:325-373`)

The operations below are the bodies of the two `sgMutex`-guarded critical
sections; the mutex serializes them, so an execution is a sequence of
these operations and can be modelled by applying them in order. -/

/-- The serialized-mode coalescer state guarded by `sgMutex`: the list of
registered output sinks (`e.sgChans`), identified by opaque ids. -/
structure CoalescerState where
  sgChans : List Nat
deriving DecidableEq

/-- The critical section of `Collect` (`exporter.go:331-342`): append the
caller's sink; the Boolean records whether this call launched a new
underlying collection (`len(e.sgChans) == 1` after the append). -/
def collectRegister (st : CoalescerState) (sink : Nat) : CoalescerState × Bool :=
  (⟨st.sgChans ++ [sink]⟩, (st.sgChans ++ [sink]).length == 1)

/-- A burst of scrape arrivals processed in mutex order; the second
component counts how many underlying collections the burst launched. -/
def collectRegisterAll (st : CoalescerState) : List Nat → CoalescerState × Nat
  | [] => (st, 0)
  | s :: rest =>
    ((collectRegisterAll (collectRegister st s).1 rest).1,
      (if (collectRegister st s).2 then 1 else 0) +
        (collectRegisterAll (collectRegister st s).1 rest).2)

/-- The critical section at the end of `collectChans`
(`exporter.go:361-372`): the buffered metric container is replayed to
every registered sink and the sink list is reset. -/
def collectChansBroadcast {M : Type} (st : CoalescerState) (container : List M) :
    CoalescerState × List (Nat × List M) :=
  (⟨[]⟩, st.sgChans.map (fun s => (s, container)))

/-! ## Topic worker pool (`collect`, `exporter.go:526-551`) -/

/-- Worker pool size (`exporter.go:534-537`): `N := len(topics); if N > 1
{ N = minx(N/2, e.topicWorkers) }`. -/
def poolSize (numTopics workers : Nat) : Nat :=
  if 1 < numTopics then min (numTopics / 2) workers else numTopics

/-- Events of the topic phase in source order (`exporter.go:539-549`). -/
inductive PhaseEvent where
  | startWorker
  | enqueue (topic : String)
  | closeChan
deriving DecidableEq

/-- The topic phase's event sequence: the pool of `poolSize` workers is
started (`exporter.go:539-541`), then the producer sends each
filter-passing topic on the unbuffered channel (`exporter.go:543-548`),
then closes it (`exporter.go:549`). -/
def topicPhaseTrace (topics : List String) (accept : String → Bool) (workers : Nat) :
    List PhaseEvent :=
  List.replicate (poolSize topics.length workers) PhaseEvent.startWorker ++
    ((topics.filter accept).map PhaseEvent.enqueue ++ [PhaseEvent.closeChan])

/-- Completion of the producer's sends on the unbuffered topic channel:
a send (`exporter.go:546`) completes iff at least one worker is running
`loopTopics` (a receiver exists until the channel is closed); with zero
workers the first send blocks forever and `wg.Wait` is never reached. -/
def sendsComplete (queued : List String) (workers : Nat) : Bool :=
  match queued with
  | [] => true
  | _ :: rest => if workers = 0 then false else sendsComplete rest workers

/-! ## The scrape pipeline (`collect`, `exporter.go:375-691`)

The per-scrape fan-out is modelled functionally: an environment record
holds the result of every RPC the scrape performs, and `collect` returns
the list of emitted metrics.  Goroutine interleaving only permutes the
emission order on the shared channel; the model fixes one order (phase by
phase, key by key), faithful up to multiset equality — the wait-group
barriers of the source sequence the phases exactly as concatenated here.
The Zookeeper-lag branch (`useZooKeeperLag`) is disabled in the modelled
configuration, and the metadata-refresh step (`exporter.go:390-397`) only
logs on failure and touches no metric, so neither appears. -/

/-- One member of a described consumer group; `assignment` is the result
of `GetMemberAssignment` (`exporter.go:590`), `none` on error.  Only the
error case influences the modelled control flow: the offset-fetch request
the assignments feed is answered by the broker environment below. -/
structure GroupMember where
  assignment : Option (List (String × List Int))

/-- One partition block of an `OffsetFetch` response
(`exporter.go:611-661`): the partition id, whether the block's error code
is `ErrNoError`, and the committed offset (`-1` = no commit recorded). -/
structure FetchBlock where
  partition : Int
  errOk : Bool
  offset : Int
deriving DecidableEq

/-- Per-partition results of the topic worker's RPCs
(`exporter.go:426-472`); a `none` models the corresponding call returning
an error. -/
structure PartitionEntry where
  id : Int
  leader : Option Int
  newest : Option Int
  oldest : Option Int
  replicas : Option (List Int)
  isr : Option (List Int)

/-- Broker-side data for one broker: identity plus the results of the
RPCs the group worker issues against it (`exporter.go:553-609`).  The
per-group description and offset-fetch results are keyed by the requested
group id (a well-behaved broker answers for the groups it was asked
about). -/
structure BrokerData where
  id : Int
  addr : String
  openOk : Bool
  listGroupsResult : Option (List String)
  describeOk : Bool
  groupMembers : String → Option (List GroupMember)
  fetchOffsetResult : String → Option (List (String × List FetchBlock))

/-- One key of the offset timeline with its samples, as iterated by the
lag pass (`exporter.go:706-727`). -/
structure TimelineEntry where
  group : String
  topic : String
  partition : Int
  samples : List (Int × Int)

/-- Environment of one scrape: every RPC result the pipeline consumes,
the configured filters and flags, the timeline contents at lag-pass time,
and the wall clock. -/
structure ScrapeEnv where
  brokers : List BrokerData
  topicsResult : Option (List String)
  partitionsOf : String → Option (List PartitionEntry)
  topicIncludeMatch : String → Bool
  topicExcludeMatch : String → Bool
  groupIncludeMatch : String → Bool
  groupExcludeMatch : String → Bool
  offsetShowAll : Bool
  adminOk : Bool
  latestConsumed : String → String → Int → Option Int
  lagTable : List TimelineEntry
  nowMs : Int

/-- The metric stream: one constructor per descriptor, carrying the
variable labels and the value. -/
inductive Metric where
  | brokersCount (v : Nat)
  | brokerInfo (id : Int) (addr : String)
  | topicPartitions (topic : String) (v : Nat)
  | partitionLeader (topic : String) (partition : Int) (v : Int)
  | partitionCurrentOffset (topic : String) (partition : Int) (v : Int)
  | partitionOldestOffset (topic : String) (partition : Int) (v : Int)
  | partitionReplicas (topic : String) (partition : Int) (v : Nat)
  | partitionInSyncReplicas (topic : String) (partition : Int) (v : Nat)
  | leaderIsPreferred (topic : String) (partition : Int) (v : Nat)
  | underReplicated (topic : String) (partition : Int) (v : Nat)
  | cgMembers (group : String) (v : Nat)
  | cgCurrentOffset (group : String) (topic : String) (partition : Int) (v : Int)
  | cgCurrentOffsetSum (group : String) (topic : String) (v : Int)
  | cgLag (group : String) (topic : String) (partition : Int) (v : Int)
  | cgLagSum (group : String) (topic : String) (v : Int)
  | lagMillis (group : String) (topic : String) (partition : Int) (v : ℚ)
  | interpolationUsed (group : String) (topic : String) (partition : Int)
  | extrapolationUsed (group : String) (topic : String) (partition : Int)
deriving DecidableEq

/-- The topic variable label of a metric, when it has one. -/
def Metric.topicLabel : Metric → Option String
  | Metric.brokersCount _ => none
  | Metric.brokerInfo _ _ => none
  | Metric.topicPartitions t _ => some t
  | Metric.partitionLeader t _ _ => some t
  | Metric.partitionCurrentOffset t _ _ => some t
  | Metric.partitionOldestOffset t _ _ => some t
  | Metric.partitionReplicas t _ _ => some t
  | Metric.partitionInSyncReplicas t _ _ => some t
  | Metric.leaderIsPreferred t _ _ => some t
  | Metric.underReplicated t _ _ => some t
  | Metric.cgMembers _ _ => none
  | Metric.cgCurrentOffset _ t _ _ => some t
  | Metric.cgCurrentOffsetSum _ t _ => some t
  | Metric.cgLag _ t _ _ => some t
  | Metric.cgLagSum _ t _ => some t
  | Metric.lagMillis _ t _ _ => some t
  | Metric.interpolationUsed _ t _ => some t
  | Metric.extrapolationUsed _ t _ => some t

/-- The consumer-group variable label of a metric, when it has one. -/
def Metric.groupLabel : Metric → Option String
  | Metric.cgMembers g _ => some g
  | Metric.cgCurrentOffset g _ _ _ => some g
  | Metric.cgCurrentOffsetSum g _ _ => some g
  | Metric.cgLag g _ _ _ => some g
  | Metric.cgLagSum g _ _ => some g
  | Metric.lagMillis g _ _ _ => some g
  | Metric.interpolationUsed g _ _ => some g
  | Metric.extrapolationUsed g _ _ => some g
  | _ => none

/-- `e.topicFilter.MatchString(topic) && !e.topicExclude.MatchString(topic)`
(`exporter.go:410` and `exporter.go:544`). -/
def topicAccepted (env : ScrapeEnv) (t : String) : Bool :=
  env.topicIncludeMatch t && !env.topicExcludeMatch t

/-- `[f v]` when the RPC succeeded, nothing on error: each per-partition
RPC failure only skips its own metric (`exporter.go:426-472`). -/
def optMetric {A : Type} (o : Option A) (f : A → Metric) : List Metric :=
  match o with
  | some v => [f v]
  | none => []

/-- `broker != nil && replicas != nil && len(replicas) > 0 &&
broker.ID() == replicas[0]` (`exporter.go:474`). -/
def leaderIsPreferredCond (pe : PartitionEntry) : Bool :=
  match pe.leader, pe.replicas with
  | some l, some rs => decide (0 < rs.length) && (rs.getD 0 0 == l)
  | _, _ => false

/-- `replicas != nil && inSyncReplicas != nil &&
len(inSyncReplicas) < len(replicas)` (`exporter.go:484`). -/
def underReplicatedCond (pe : PartitionEntry) : Bool :=
  match pe.replicas, pe.isr with
  | some rs, some irs => decide (irs.length < rs.length)
  | _, _ => false

/-- Metrics of one partition of one topic (loop body
`exporter.go:425-512`, Zookeeper branch disabled). -/
def partitionMetrics (t : String) (pe : PartitionEntry) : List Metric :=
  optMetric pe.leader (fun l => Metric.partitionLeader t pe.id l) ++
    (optMetric pe.newest (fun o => Metric.partitionCurrentOffset t pe.id o) ++
      (optMetric pe.oldest (fun o => Metric.partitionOldestOffset t pe.id o) ++
        (optMetric pe.replicas (fun rs => Metric.partitionReplicas t pe.id rs.length) ++
          (optMetric pe.isr (fun irs => Metric.partitionInSyncReplicas t pe.id irs.length) ++
            [Metric.leaderIsPreferred t pe.id (if leaderIsPreferredCond pe then 1 else 0),
             Metric.underReplicated t pe.id (if underReplicatedCond pe then 1 else 0)]))))

/-- `getTopicMetrics` worker body (`exporter.go:407-513`): re-checks the
filter, lists the partitions (on error only a log line), emits the
partition count and then each partition's metrics. -/
def getTopicMetrics (env : ScrapeEnv) (t : String) : List Metric :=
  if !topicAccepted env t then []
  else
    match env.partitionsOf t with
    | none => []
    | some parts => Metric.topicPartitions t parts.length :: parts.flatMap (partitionMetrics t)

/-- Association-list update modelling the map assignment
`offset[topic] = make(...)` (`exporter.go:423`). -/
def replaceEntry (m : List (String × List (Int × Int))) (t : String)
    (v : List (Int × Int)) : List (String × List (Int × Int)) :=
  m.filter (fun e => !(e.1 == t)) ++ [(t, v)]

/-- The newest-offset entries a topic worker records under the pipeline
mutex (`exporter.go:439-441`): one per partition whose
`GetOffset(Newest)` succeeded. -/
def newestOffsetsOf (parts : List PartitionEntry) : List (Int × Int) :=
  parts.filterMap (fun pe => pe.newest.map (fun o => (pe.id, o)))

/-- The per-scrape `offset` map after the topic phase: the workers insert
`offset[t]` for every filter-passing topic whose `Partitions` call
succeeded, filling in newest offsets per partition. -/
def buildOffsetMap (env : ScrapeEnv) (ts : List String) : List (String × List (Int × Int)) :=
  ts.foldl
    (fun m t =>
      if topicAccepted env t then
        match env.partitionsOf t with
        | none => m
        | some parts => replaceEntry m t (newestOffsetsOf parts)
      else m) []

/-- `offset, ok := offset[topic][partition]` (`exporter.go:643`). -/
def offsetLookup (m : List (String × List (Int × Int))) (t : String) (p : Int) : Option Int :=
  match m.find? (fun e => e.1 == t) with
  | none => none
  | some e => (e.2.find? (fun q => q.1 == p)).map Prod.snd

/-- Output of the per-partition loop over one topic's offset-fetch blocks
(`exporter.go:629-661`): the metric emissions, the two running sums, and
the `createOrUpdate` calls issued to the timeline as
(partition, stored value) pairs. -/
structure BlockAcc where
  curSum : Int
  lagSum : Int
  emits : List Metric
  updates : List (Int × Int)

/-- The loop at `exporter.go:631-661` over the partition blocks of one
(group, topic): blocks with an error code are skipped whole (`continue`);
each surviving block adds its committed offset to the offset sum and
emits it; when the partition is present in the per-scrape offset map, the
timeline receives the map's newest offset via `createOrUpdate` and a lag
metric is emitted — forced to −1 when there is no commit, in which case
it is excluded from the lag sum.  The blocks come from a Go map, so their
list order is arbitrary; both sums are order-independent. -/
def processBlocks (lookup : Int → Option Int) (g t : String) : List FetchBlock → BlockAcc
  | [] => ⟨0, 0, [], []⟩
  | b :: rest =>
    let acc := processBlocks lookup g t rest
    if !b.errOk then acc
    else
      match lookup b.partition with
      | some newest =>
        ⟨b.offset + acc.curSum,
         (if b.offset = -1 then 0 else newest - b.offset) + acc.lagSum,
         Metric.cgCurrentOffset g t b.partition b.offset ::
           Metric.cgLag g t b.partition (if b.offset = -1 then -1 else newest - b.offset) ::
           acc.emits,
         (b.partition, newest) :: acc.updates⟩
      | none =>
        ⟨b.offset + acc.curSum, acc.lagSum,
         Metric.cgCurrentOffset g t b.partition b.offset :: acc.emits, acc.updates⟩

/-- The loop over the topics of one group's offset-fetch response
(`exporter.go:611-668`): topics failing the *include* regex are skipped
(`exporter.go:613`; the exclude regex is not consulted here), topics with
no partition committed are skipped, and each surviving topic emits its
block metrics followed by the two per-topic sums. -/
def groupTopicBlocks (env : ScrapeEnv) (omap : List (String × List (Int × Int))) (g : String) :
    List (String × List FetchBlock) → List Metric
  | [] => []
  | (t, blocks) :: rest =>
    if !env.topicIncludeMatch t then groupTopicBlocks env omap g rest
    else if !(blocks.any (fun fb => !(fb.offset == -1))) then groupTopicBlocks env omap g rest
    else
      (processBlocks (fun p => offsetLookup omap t p) g t blocks).emits ++
        (Metric.cgCurrentOffsetSum g t
            (processBlocks (fun p => offsetLookup omap t p) g t blocks).curSum ::
          Metric.cgLagSum g t (processBlocks (fun p => offsetLookup omap t p) g t blocks).lagSum ::
          groupTopicBlocks env omap g rest)

/-- The loop over a broker's described groups (`exporter.go:578-669`):
when `offsetShowAll` is unset, a failing `GetMemberAssignment` aborts the
whole broker worker (the `return` at `exporter.go:594`); otherwise the
group's member count is emitted, and an offset-fetch error skips only
this group (`continue`, `exporter.go:606-609`). -/
def processGroups (env : ScrapeEnv) (omap : List (String × List (Int × Int))) (b : BrokerData) :
    List (String × List GroupMember) → List Metric
  | [] => []
  | (g, members) :: rest =>
    if !env.offsetShowAll && members.any (fun m => m.assignment.isNone) then []
    else
      Metric.cgMembers g members.length ::
        ((match b.fetchOffsetResult g with
          | none => []
          | some blocks => groupTopicBlocks env omap g blocks) ++
          processGroups env omap b rest)

/-- `getConsumerGroupMetrics` broker worker (`exporter.go:553-670`):
failures of `Open`, `ListGroups` or `DescribeGroups` abort this broker's
worker only; group ids are filtered by the group include and exclude
regexes (`exporter.go:566-571`) before being described. -/
def getConsumerGroupMetrics (env : ScrapeEnv) (omap : List (String × List (Int × Int)))
    (b : BrokerData) : List Metric :=
  if !b.openOk then []
  else
    match b.listGroupsResult with
    | none => []
    | some gids =>
      if !b.describeOk then []
      else
        processGroups env omap b
          ((gids.filter (fun g => env.groupIncludeMatch g && !env.groupExcludeMatch g)).filterMap
            (fun g => (b.groupMembers g).map (fun ms => (g, ms))))

/-- The lag pass `metricsForLag` (`exporter.go:693-777`): nothing is
emitted when the cluster-admin construction fails (`exporter.go:695-703`);
otherwise every timeline key is estimated from its samples and the
group's latest consumed offset, emitting the branch indicator counter
followed by the lag gauge. -/
def metricsForLagPass (env : ScrapeEnv) : List Metric :=
  if !env.adminOk then []
  else
    env.lagTable.flatMap (fun e =>
      match metricsForLagPartition e.samples (env.latestConsumed e.group e.topic e.partition)
          env.nowMs with
      | none => []
      | some r =>
        match r.method with
        | LagMethod.extrapolation =>
          [Metric.extrapolationUsed e.group e.topic e.partition,
           Metric.lagMillis e.group e.topic e.partition r.lagMillis]
        | LagMethod.interpolation =>
          [Metric.interpolationUsed e.group e.topic e.partition,
           Metric.lagMillis e.group e.topic e.partition r.lagMillis])

/-- Broker-count and broker-info metrics (`exporter.go:377-384`). -/
def brokerPhase (env : ScrapeEnv) : List Metric :=
  Metric.brokersCount env.brokers.length ::
    env.brokers.map (fun b => Metric.brokerInfo b.id b.addr)

/-- The topic worker phase (`exporter.go:405-551`): the producer enqueues
the filter-passing topics and the workers run `getTopicMetrics` on
each. -/
def topicPhase (env : ScrapeEnv) (ts : List String) : List Metric :=
  (ts.filter (topicAccepted env)).flatMap (getTopicMetrics env)

/-- The broker fan-out (`exporter.go:672-681`): one `getConsumerGroupMetrics`
worker per broker, all reading the offset map built by the topic phase. -/
def groupPhase (env : ScrapeEnv) (ts : List String) : List Metric :=
  env.brokers.flatMap (getConsumerGroupMetrics env (buildOffsetMap env ts))

/-- The whole scrape `collect` (`exporter.go:375-691`): broker metrics
first; then `client.Topics()` — on error the function *returns*
(`exporter.go:399-403`) and nothing further is emitted; otherwise the
topic worker phase, the broker fan-out for group metrics and the lag pass
all run, in that wait-group barrier order. -/
def collect (env : ScrapeEnv) : List Metric :=
  match env.topicsResult with
  | none => brokerPhase env
  | some ts => brokerPhase env ++ topicPhase env ts ++ groupPhase env ts ++ metricsForLagPass env

/-- Concrete environment for the C7 counterexample: every topic matches
the include regex, the topic `"bad"` also matches the exclude regex, and
a described group `"g"` reports a committed offset for `"bad"`. -/
def filterHoleEnv : ScrapeEnv :=
  { brokers := [⟨1, "kafka1:9092", true, some ["g"], true,
      fun _ => some [], fun _ => some [("bad", [⟨0, true, 5⟩])]⟩]
    topicsResult := some []
    partitionsOf := fun _ => none
    topicIncludeMatch := fun _ => true
    topicExcludeMatch := fun s => s == "bad"
    groupIncludeMatch := fun _ => true
    groupExcludeMatch := fun _ => false
    offsetShowAll := true
    adminOk := false
    latestConsumed := fun _ _ _ => none
    lagTable := []
    nowMs := 0 }

/-- Concrete environment for the C4 counterexample: the `client.Topics()`
call fails while the environment holds broker, partition and timeline
data that the later phases would have turned into metrics. -/
def abortedScrapeEnv : ScrapeEnv :=
  { brokers := [⟨1, "kafka1:9092", true, some ["g"], true,
      fun _ => some [], fun _ => some [("t", [⟨0, true, 5⟩])]⟩]
    topicsResult := none
    partitionsOf := fun _ => some [⟨0, some 1, some 100, some 0, some [1], some [1]⟩]
    topicIncludeMatch := fun _ => true
    topicExcludeMatch := fun _ => false
    groupIncludeMatch := fun _ => true
    groupExcludeMatch := fun _ => false
    offsetShowAll := true
    adminOk := true
    latestConsumed := fun _ _ _ => some 50
    lagTable := [⟨"g", "t", 0, [(100, 0), (300, 20000)]⟩]
    nowMs := 30000 }

/-- Concrete healthy environment (one topic, one broker, `Topics()`
succeeding) for the C4 witness. -/
def healthyScrapeEnv : ScrapeEnv :=
  { abortedScrapeEnv with topicsResult := some ["t"] }

/-! ### Index arithmetic helpers for strictly sorted sample lists -/

lemma pairwise_getD_lt (l : List Int) (hp : l.Pairwise (· < ·))
    {a b : Nat} (hab : a < b) (hb : b < l.length) :
    l.getD a 0 < l.getD b 0 := by
  have ha : a < l.length := lt_trans hab hb
  rw [List.getD_eq_getElem l 0 ha, List.getD_eq_getElem l 0 hb]
  exact List.pairwise_iff_getElem.mp hp a b ha hb hab

lemma pairwise_getD_le (l : List Int) (hp : l.Pairwise (· < ·))
    {a b : Nat} (hab : a ≤ b) (hb : b < l.length) :
    l.getD a 0 ≤ l.getD b 0 := by
  rcases Nat.lt_or_ge a b with h | h
  · exact le_of_lt (pairwise_getD_lt l hp h hb)
  · have : a = b := le_antisymm hab h
    rw [this]

/-- Existence of the greatest index below a bound satisfying a decidable
predicate that holds at `0`. -/
lemma exists_greatest_below (P : Nat → Prop) [DecidablePred P] (n : Nat) (h0 : P 0) :
    ∃ j, j ≤ n ∧ P j ∧ ∀ m, j < m → m ≤ n → ¬ P m := by
  induction n with
  | zero =>
    exact ⟨0, Nat.le_refl 0, h0, fun m h1 h2 => absurd (Nat.lt_of_lt_of_le h1 h2) (Nat.lt_irrefl 0)⟩
  | succ n ih =>
    by_cases hP : P (n + 1)
    · exact ⟨n + 1, Nat.le_refl _, hP, fun m h1 h2 => absurd (Nat.lt_of_lt_of_le h1 h2) (Nat.lt_irrefl _)⟩
    · obtain ⟨j, hj, hPj, hmax⟩ := ih
      refine ⟨j, Nat.le_trans hj (Nat.le_succ n), hPj, fun m h1 h2 => ?_⟩
      rcases Nat.lt_or_ge m (n + 1) with hlt | hge
      · exact hmax m h1 (Nat.lt_succ_iff.mp hlt)
      · have : m = n + 1 := Nat.le_antisymm h2 hge
        rw [this]; exact hP

/-- Characterization of the `getNextHigherOffset` scan loop: starting at or
above the least index `i` with `k ≤ offsets[i]`, with the accumulator in its
lagging position, the scan returns `offsets[min (i+1) (len-1)]`. -/
lemma nextHigherGo_spec (offsets : List Int) (k : Int) (hp : offsets.Pairwise (· < ·))
    (i : Nat) (hi : i < offsets.length)
    (hik : k ≤ offsets.getD i 0)
    (hmin : ∀ m, m < i → offsets.getD m 0 < k) :
    ∀ index, i ≤ index → index < offsets.length →
      nextHigherGo offsets k index (offsets.getD (min (index + 1) (offsets.length - 1)) 0) =
        offsets.getD (min (i + 1) (offsets.length - 1)) 0 := by
  intro index
  induction index with
  | zero =>
    intro hii _
    have : i = 0 := Nat.le_antisymm (Nat.le_zero.mpr (Nat.le_zero.mp hii)) (Nat.zero_le i)
    rw [this, nextHigherGo]
  | succ idx ih =>
    intro hii hlen
    have hposlt : min (idx + 2) (offsets.length - 1) < offsets.length := by omega
    have hposge : i ≤ min (idx + 2) (offsets.length - 1) := by omega
    have hmx : k ≤ offsets.getD (min (idx + 2) (offsets.length - 1)) 0 :=
      le_trans hik (pairwise_getD_le offsets hp hposge hposlt)
    rcases Nat.lt_or_ge idx i with hcase | hcase
    · -- `idx < i ≤ idx+1`, so `i = idx+1`: the inner test fires and returns `mx`.
      have hieq : i = idx + 1 := Nat.le_antisymm hii (Nat.succ_le_of_lt hcase)
      rw [nextHigherGo, if_pos hmx, if_pos (hmin idx hcase)]
      rw [hieq]
    · -- `i ≤ idx`: the scan continues one step down with the lagged accumulator.
      have hnotlt : ¬ offsets.getD idx 0 < k := by
        have : k ≤ offsets.getD idx 0 :=
          le_trans hik (pairwise_getD_le offsets hp hcase (by omega))
        omega
      rw [nextHigherGo, if_pos hmx, if_neg hnotlt]
      have hmid : min (idx + 1) (offsets.length - 1) = idx + 1 := by omega
      have := ih hcase (by omega)
      rw [hmid] at this
      exact this

/-- `getNextHigherOffset` at a key that some sample reaches: with `i` the
least index satisfying `k ≤ offsets[i]`, the result is
`offsets[min (i+1) (len-1)]` — one sample *above* the tight upper bound,
clamped to the last sample. -/
lemma getNextHigherOffset_spec (offsets : List Int) (k : Int) (hp : offsets.Pairwise (· < ·))
    (i : Nat) (hi : i < offsets.length)
    (hik : k ≤ offsets.getD i 0)
    (hmin : ∀ m, m < i → offsets.getD m 0 < k) :
    getNextHigherOffset offsets k = offsets.getD (min (i + 1) (offsets.length - 1)) 0 := by
  have hlen : 1 ≤ offsets.length := Nat.one_le_of_lt (Nat.lt_of_le_of_lt (Nat.zero_le i) hi)
  have hstart : offsets.getD (offsets.length - 1) 0 =
      offsets.getD (min ((offsets.length - 1) + 1) (offsets.length - 1)) 0 := by
    have : min ((offsets.length - 1) + 1) (offsets.length - 1) = offsets.length - 1 := by omega
    rw [this]
  rw [getNextHigherOffset, hstart]
  exact nextHigherGo_spec offsets k hp i hi hik hmin (offsets.length - 1) (by omega) (by omega)

/-- `getNextHigherOffset` when `k` exceeds every sample: the loop guard
fails immediately and the last sample is returned. -/
lemma getNextHigherOffset_of_all_lt (offsets : List Int) (k : Int)
    (hk : offsets.getD (offsets.length - 1) 0 < k) :
    getNextHigherOffset offsets k = offsets.getD (offsets.length - 1) 0 := by
  rw [getNextHigherOffset]
  rcases h : offsets.length - 1 with _ | m
  · rw [nextHigherGo]
  · rw [h] at hk
    rw [nextHigherGo, if_neg (by omega)]

/-- Characterization of the `getNextLowerOffset` scan loop: with `j` the
greatest index satisfying `offsets[j] ≤ k`, starting at or below `j` with
the accumulator in its lagging position, the scan returns `offsets[j-1]`
(natural subtraction: `offsets[0]` when `j = 0`). -/
lemma nextLowerGo_spec (offsets : List Int) (k : Int) (hp : offsets.Pairwise (· < ·))
    (j : Nat) (hj : j < offsets.length)
    (hjk : offsets.getD j 0 ≤ k)
    (hmax : ∀ m, j < m → m < offsets.length → k < offsets.getD m 0) :
    ∀ fuel index, index ≤ j → fuel + index = offsets.length - 1 →
      nextLowerGo offsets k fuel index (offsets.getD (index - 1) 0) = offsets.getD (j - 1) 0 := by
  intro fuel
  induction fuel with
  | zero =>
    intro index hij hfi
    have : index = j := by omega
    rw [this, nextLowerGo]
  | succ f ih =>
    intro index hij hfi
    have hmn : offsets.getD (index - 1) 0 ≤ k :=
      le_trans (pairwise_getD_le offsets hp (by omega) hj) hjk
    rcases Nat.lt_or_ge index j with hcase | hcase
    · -- `index < j`: the next sample is still at or below `k`, keep scanning.
      have hnot : ¬ k < offsets.getD (index + 1) 0 := by
        have : offsets.getD (index + 1) 0 ≤ offsets.getD j 0 :=
          pairwise_getD_le offsets hp (by omega) hj
        omega
      rw [nextLowerGo, if_pos hmn, if_neg hnot]
      have := ih (index + 1) (by omega) (by omega)
      have harg : index + 1 - 1 = index := by omega
      rw [harg] at this
      exact this
    · -- `index = j`: the next sample exceeds `k` (it exists since `fuel > 0`),
      -- so the lagged accumulator `offsets[j-1]` is returned.
      have hieq : index = j := Nat.le_antisymm hij hcase
      have hnext : k < offsets.getD (index + 1) 0 := by
        refine hmax (index + 1) (by omega) (by omega)
      rw [nextLowerGo, if_pos hmn, if_pos hnext, hieq]

/-- `getNextLowerOffset` with `j` the greatest index satisfying
`offsets[j] ≤ k`: the result is `offsets[j-1]` — one sample *below* the
tight lower bound, clamped to the first sample. -/
lemma getNextLowerOffset_spec (offsets : List Int) (k : Int) (hp : offsets.Pairwise (· < ·))
    (j : Nat) (hj : j < offsets.length)
    (hjk : offsets.getD j 0 ≤ k)
    (hmax : ∀ m, j < m → m < offsets.length → k < offsets.getD m 0) :
    getNextLowerOffset offsets k = offsets.getD (j - 1) 0 := by
  rw [getNextLowerOffset]
  have := nextLowerGo_spec offsets k hp j hj hjk hmax (offsets.length - 1) 0 (Nat.zero_le j) (by omega)
  simpa using this

/-! ### Claims C1 and C10 -/

/-- C1 (counterexample): the claim states that the interpolation branch uses
`D` = the largest sampled offset strictly below `c`.  On the sample list
`[100, 200, 300]` with committed offset `c = 250`, the spec's `D` is `200`,
but `getNextLowerOffset` returns `100`. -/
theorem getNextLowerOffset_spec_mismatch :
    getNextLowerOffset [100, 200, 300] 250 = 100 ∧
    specNextLowerOffset [100, 200, 300] 250 = some 200 ∧
    specNextLowerOffset [100, 200, 300] 250 ≠ some (getNextLowerOffset [100, 200, 300] 250) := by
  refine ⟨rfl, rfl, by decide⟩

/-- C1 (amended): in the interpolation branch (`p_0 ≤ c`, at least two
samples, strictly increasing samples), the code's bounds are one position
beyond the tight ones: `D = p_{j-1}` where `p_j` is the largest sampled
offset `≤ c` (clamped to `p_0` when `j = 0`), and `U = p_{min(i+1, n-1)}`
where `p_i` is the smallest sampled offset `≥ c`; when `c ≥ p_{n-1}`, `U`
defaults to `p_{n-1}` and `D` to `p_{n-2}` exactly as the claim states. -/
theorem lagBounds_characterization (offsets : List Int) (c : Int)
    (hp : offsets.Pairwise (· < ·)) (_hn : 2 ≤ offsets.length)
    (_h0 : offsets.getD 0 0 ≤ c) :
    (∀ j, j < offsets.length → offsets.getD j 0 ≤ c →
        (∀ m, j < m → m < offsets.length → c < offsets.getD m 0) →
        getNextLowerOffset offsets c = offsets.getD (j - 1) 0) ∧
    (∀ i, i < offsets.length → c ≤ offsets.getD i 0 →
        (∀ m, m < i → offsets.getD m 0 < c) →
        getNextHigherOffset offsets c = offsets.getD (min (i + 1) (offsets.length - 1)) 0) ∧
    (offsets.getD (offsets.length - 1) 0 ≤ c →
        getNextHigherOffset offsets c = offsets.getD (offsets.length - 1) 0 ∧
        getNextLowerOffset offsets c = offsets.getD (offsets.length - 2) 0) := by
  refine ⟨fun j hj hjk hmax => getNextLowerOffset_spec offsets c hp j hj hjk hmax,
          fun i hi hik hmin => getNextHigherOffset_spec offsets c hp i hi hik hmin, fun hlast => ?_⟩
  constructor
  · rcases lt_or_eq_of_le hlast with hlt | heq
    · exact getNextHigherOffset_of_all_lt offsets c hlt
    · have hmin : ∀ m, m < offsets.length - 1 → offsets.getD m 0 < c := by
        intro m hm
        have := pairwise_getD_lt offsets hp hm (by omega)
        omega
      have h := getNextHigherOffset_spec offsets c hp (offsets.length - 1) (by omega)
        (le_of_eq heq.symm) hmin
      have hmini : min ((offsets.length - 1) + 1) (offsets.length - 1) = offsets.length - 1 := by
        omega
      rw [hmini] at h
      exact h
  · have hmax : ∀ m, offsets.length - 1 < m → m < offsets.length → c < offsets.getD m 0 := by
      intro m h1 h2
      omega
    have h := getNextLowerOffset_spec offsets c hp (offsets.length - 1) (by omega) hlast hmax
    have : offsets.length - 1 - 1 = offsets.length - 2 := by omega
    rw [this] at h
    exact h

/-- C1 (witness): the amended characterization evaluated at the sample list
`[100, 200, 300]` with `c = 250` (where `j = 1` and `i = 2`). -/
theorem lagBounds_characterization_witness :
    getNextLowerOffset [100, 200, 300] 250 = 100 ∧
    getNextHigherOffset [100, 200, 300] 250 = 300 := by
  have h := lagBounds_characterization [100, 200, 300] 250 (by decide) (by decide) (by decide)
  have h1 := h.1 1 (by decide) (by decide) (by
    intro m h1 h2
    have h2' : m < 3 := by simpa using h2
    have hm : m = 2 := by omega
    subst hm
    decide)
  have h2 := h.2.1 2 (by decide) (by decide) (by
    intro m hm
    have hcases : m = 0 ∨ m = 1 := by omega
    rcases hcases with h' | h'
    · subst h'; decide
    · subst h'; decide)
  exact ⟨h1.trans (by decide), h2.trans (by decide)⟩

/-- C10: for strictly sorted sample lists with at least two elements and a
committed offset `c` at or above the first sample (the interpolation
branch), `getNextHigherOffset` returns a strictly larger value than
`getNextLowerOffset`, so the interpolation divisor is nonzero. -/
theorem interpolationDivisor_pos (offsets : List Int) (c : Int)
    (hp : offsets.Pairwise (· < ·)) (hn : 2 ≤ offsets.length)
    (h0 : offsets.getD 0 0 ≤ c) :
    getNextLowerOffset offsets c < getNextHigherOffset offsets c ∧
    getNextHigherOffset offsets c - getNextLowerOffset offsets c ≠ 0 := by
  obtain ⟨j, hj, hPj, hjmax⟩ :=
    exists_greatest_below (fun m => offsets.getD m 0 ≤ c) (offsets.length - 1) h0
  have hjlen : j < offsets.length := by omega
  have hmax : ∀ m, j < m → m < offsets.length → c < offsets.getD m 0 := by
    intro m h1 h2
    have := hjmax m h1 (by omega)
    omega
  have hlow : getNextLowerOffset offsets c = offsets.getD (j - 1) 0 :=
    getNextLowerOffset_spec offsets c hp j hjlen hPj hmax
  rcases le_or_lt c (offsets.getD (offsets.length - 1) 0) with hle | hgt
  · have hex : ∃ m, c ≤ offsets.getD m 0 := ⟨offsets.length - 1, hle⟩
    have hik : c ≤ offsets.getD (Nat.find hex) 0 := Nat.find_spec hex
    have hilen : Nat.find hex ≤ offsets.length - 1 := Nat.find_min' hex hle
    have hmin : ∀ m, m < Nat.find hex → offsets.getD m 0 < c := by
      intro m hm
      have := Nat.find_min hex hm
      omega
    have hhigh := getNextHigherOffset_spec offsets c hp (Nat.find hex) (by omega) hik hmin
    have hji : j ≤ Nat.find hex := by
      by_contra hcon
      push_neg at hcon
      have h1 : offsets.getD (Nat.find hex) 0 < offsets.getD j 0 :=
        pairwise_getD_lt offsets hp hcon hjlen
      omega
    have hidx : j - 1 < min (Nat.find hex + 1) (offsets.length - 1) := by omega
    have hval : offsets.getD (j - 1) 0 <
        offsets.getD (min (Nat.find hex + 1) (offsets.length - 1)) 0 :=
      pairwise_getD_lt offsets hp hidx (by omega)
    rw [hlow, hhigh]
    omega
  · have hhigh := getNextHigherOffset_of_all_lt offsets c hgt
    have hjeq : j = offsets.length - 1 := by
      by_contra hcon
      have : c < offsets.getD (offsets.length - 1) 0 := hmax _ (by omega) (by omega)
      omega
    have hval : offsets.getD (j - 1) 0 < offsets.getD (offsets.length - 1) 0 :=
      pairwise_getD_lt offsets hp (by omega) (by omega)
    rw [hlow, hhigh]
    omega

/-- C10 (witness): the divisor bound evaluated at `[100, 200, 300]`,
`c = 250`. -/
theorem interpolationDivisor_pos_witness :
    getNextLowerOffset [100, 200, 300] 250 < getNextHigherOffset [100, 200, 300] 250 ∧
    getNextHigherOffset [100, 200, 300] 250 - getNextLowerOffset [100, 200, 300] 250 ≠ 0 :=
  interpolationDivisor_pos [100, 200, 300] 250 (by decide) (by decide) (by decide)

/-! ### Claim C5 -/

lemma producedOffsetsOf_of_sorted (samples : List (Int × Int))
    (hs : (samples.map Prod.fst).Pairwise (· < ·)) :
    producedOffsetsOf samples = samples.map Prod.fst :=
  List.Sorted.insertionSort_eq (List.Pairwise.imp (fun h => le_of_lt h) hs)

/-- C5: with at least two samples (strictly increasing produced offsets)
and a latest committed offset `c` below the smallest sampled offset, the
estimator emits the extrapolation indicator and
`lag = now − (t(H) − (H − c)·(t(H) − t(L))/(H − L))` with `H`/`L` the
largest/smallest sampled offsets; with fewer than two samples nothing is
emitted for the key. -/
theorem metricsForLag_extrapolation (samples : List (Int × Int)) (c nowMs : Int)
    (hs : (samples.map Prod.fst).Pairwise (· < ·))
    (hn : 2 ≤ samples.length)
    (hc : c < (samples.map Prod.fst).getD 0 0) :
    metricsForLagPartition samples (some c) nowMs =
      some ⟨LagMethod.extrapolation,
        (nowMs : ℚ) - pxEstimate
          (timeOf samples ((samples.map Prod.fst).getD (samples.length - 1) 0))
          (timeOf samples ((samples.map Prod.fst).getD 0 0))
          ((samples.map Prod.fst).getD (samples.length - 1) 0)
          ((samples.map Prod.fst).getD 0 0) c⟩ ∧
    ∀ (s2 : List (Int × Int)) (lc : Option Int) (nw : Int),
      s2.length < 2 → metricsForLagPartition s2 lc nw = none := by
  constructor
  · have hprod : producedOffsetsOf samples = samples.map Prod.fst :=
      producedOffsetsOf_of_sorted samples hs
    have hlen : ¬ samples.length < 2 := by omega
    simp only [metricsForLagPartition, if_neg hlen, hprod, List.length_map, if_pos hc]
  · intro s2 lc nw h
    simp only [metricsForLagPartition, if_pos h]

/-- C5 (witness): the estimator at samples
`{100 ↦ 0ms, 200 ↦ 10000ms, 300 ↦ 20000ms}`, committed offset `50`,
`now = 30000ms`: extrapolation with lag `35000ms`; and a single sample
emits nothing. -/
theorem metricsForLag_extrapolation_witness :
    metricsForLagPartition [(100, 0), (200, 10000), (300, 20000)] (some 50) 30000 =
      some ⟨LagMethod.extrapolation, 35000⟩ ∧
    metricsForLagPartition [(100, 0)] (some 50) 30000 = none := by
  have h := metricsForLag_extrapolation [(100, 0), (200, 10000), (300, 20000)] 50 30000
    (by decide) (by decide) (by decide)
  refine ⟨?_, h.2 [(100, 0)] (some 50) 30000 (by decide)⟩
  rw [h.1]
  norm_num [timeOf, pxEstimate, List.find?, show ((100 : Int) == 300) = false from rfl,
    show ((200 : Int) == 300) = false from rfl, show ((300 : Int) == 300) = true from rfl,
    show ((100 : Int) == 100) = true from rfl]

/-! ### Claim C3 -/

lemma foldl_prunerStep_stopped {T : Type} (evts : List (PrunerEvent T)) (tl : T) (w : PrunerExit) :
    evts.foldl prunerStep (PrunerState.stopped tl w) = PrunerState.stopped tl w := by
  induction evts with
  | nil => rfl
  | cons e rest ih =>
    have hstep : prunerStep (PrunerState.stopped tl w) e = PrunerState.stopped tl w := by
      cases e with
      | tick r => cases r <;> rfl
      | quit => rfl
    rw [List.foldl, hstep]
    exact ih

/-- C3 (counterexample): on a tick whose client construction fails, the
timeline is indeed left unchanged, but the pruner `return`s
(`exporter.go:817-819`): a subsequent good tick is never processed and no
shutdown signal was received — refuting "the tick is skipped and the
pruner keeps running, terminating only on receipt of the shutdown
signal". -/
theorem runPruner_clientError_cex :
    runPruner (0 : Nat)
        [PrunerEvent.tick TickResult.fail, PrunerEvent.tick (TickResult.ok (fun t => t + 1))] =
      PrunerState.stopped 0 PrunerExit.clientError ∧
    runPruner (0 : Nat)
        [PrunerEvent.tick TickResult.fail, PrunerEvent.tick (TickResult.ok (fun t => t + 1))] ≠
      PrunerState.running 1 := by
  exact ⟨rfl, by decide⟩

/-- C3 (amended): on a tick whose client construction fails, no prune is
applied (the timeline is untouched) — but the pruner terminates right
there instead of keeping running; a quit event also terminates it, and a
tick with a working client applies that tick's prune and continues. -/
theorem runPruner_stepBehavior {T : Type} (tl : T) (rest : List (PrunerEvent T)) :
    runPruner tl (PrunerEvent.tick TickResult.fail :: rest) =
      PrunerState.stopped tl PrunerExit.clientError ∧
    runPruner tl (PrunerEvent.quit :: rest) = PrunerState.stopped tl PrunerExit.quitSignal ∧
    ∀ f : T → T, runPruner tl (PrunerEvent.tick (TickResult.ok f) :: rest) = runPruner (f tl) rest :=
  ⟨foldl_prunerStep_stopped rest tl PrunerExit.clientError,
   foldl_prunerStep_stopped rest tl PrunerExit.quitSignal,
   fun _ => rfl⟩

/-- C3 (amended, witness): the step behavior evaluated on a concrete
schedule over `Nat` timelines. -/
theorem runPruner_stepBehavior_witness :
    runPruner (7 : Nat) [PrunerEvent.tick TickResult.fail, PrunerEvent.quit] =
      PrunerState.stopped 7 PrunerExit.clientError :=
  (runPruner_stepBehavior (7 : Nat) [PrunerEvent.quit]).1

/-! ### Claim C9 -/

lemma collectRegisterAll_spec (sinks : List Nat) :
    ∀ st : CoalescerState,
      (collectRegisterAll st sinks).1.sgChans = st.sgChans ++ sinks ∧
      (st.sgChans ≠ [] → (collectRegisterAll st sinks).2 = 0) := by
  induction sinks with
  | nil => intro st; exact ⟨(List.append_nil _).symm, fun _ => rfl⟩
  | cons s rest ih =>
    intro st
    have hne : (⟨st.sgChans ++ [s]⟩ : CoalescerState).sgChans ≠ [] := by
      simp
    obtain ⟨h1, h2⟩ := ih ⟨st.sgChans ++ [s]⟩
    constructor
    · rw [collectRegisterAll]
      simp only [collectRegister] at h1 ⊢
      rw [h1, List.append_assoc]
      rfl
    · intro hst
      rw [collectRegisterAll]
      have hlen : ((st.sgChans ++ [s]).length == 1) = false := by
        have h1l : 1 ≤ st.sgChans.length := by
          cases h : st.sgChans with
          | nil => exact absurd h hst
          | cons a l => simp
        rw [beq_eq_false_iff_ne]
        simp only [List.length_append, List.length_cons, List.length_nil]
        omega
      simp only [collectRegister, hlen]
      rw [h2 hne]
      simp

/-- C9: in serialized mode, every scrape arriving while a collection is in
flight (the registered sink list is nonempty) launches no additional
underlying collection, and the broadcast at the end of `collectChans`
delivers the single collection's buffered metrics identically to every
registered sink — the pre-existing ones and all the new arrivals. -/
theorem coalescer_broadcast_identical {M : Type} (st : CoalescerState) (sinks : List Nat)
    (container : List M) (h : st.sgChans ≠ []) :
    (collectRegisterAll st sinks).2 = 0 ∧
    (collectChansBroadcast (collectRegisterAll st sinks).1 container).2 =
      (st.sgChans ++ sinks).map (fun s => (s, container)) := by
  obtain ⟨h1, h2⟩ := collectRegisterAll_spec sinks st
  refine ⟨h2 h, ?_⟩
  rw [collectChansBroadcast]
  rw [h1]

/-- C9 (witness): one collection in flight for sink `0`; three further
scrapes arrive; none launches a collection and all four sinks receive the
same container. -/
theorem coalescer_broadcast_identical_witness :
    (collectRegisterAll ⟨[0]⟩ [1, 2, 3]).2 = 0 ∧
    (collectChansBroadcast (collectRegisterAll ⟨[0]⟩ [1, 2, 3]).1 [(42 : Int)]).2 =
      [(0, [(42 : Int)]), (1, [42]), (2, [42]), (3, [42])] := by
  have h := coalescer_broadcast_identical ⟨[0]⟩ [1, 2, 3] [(42 : Int)] (by decide)
  exact ⟨h.1, h.2.trans (by decide)⟩

/-! ### Claim C8 -/

/-- C8 (counterexample): with two filter-passing topics and a configured
`topicWorkers = 0`, the pool size is `min(2/2, 0) = 0`, no worker consumes
the unbuffered channel, and the producer's first send never completes:
the topic phase does not terminate although a topic passed the filters. -/
theorem topicPhase_deadlock_cex :
    (["a", "b"].filter (fun _ => true)) ≠ [] ∧
    poolSize (["a", "b"] : List String).length 0 = 0 ∧
    sendsComplete (["a", "b"].filter (fun _ => true))
      (poolSize (["a", "b"] : List String).length 0) = false := by
  decide

/-- C8 (amended): provided the configured worker count is at least one, a
scrape with at least one filter-passing topic has a terminating topic
phase; the workers are started before the producer enqueues any topic
(the phase trace begins with the `poolSize` worker starts), and the pool
size is `min(len(topics)/2, topicWorkers)` when there is more than one
topic and `len(topics)` otherwise. -/
theorem topicPhase_terminates (topics : List String) (accept : String → Bool) (workers : Nat)
    (hw : 1 ≤ workers) (hne : topics.filter accept ≠ []) :
    sendsComplete (topics.filter accept) (poolSize topics.length workers) = true ∧
    (topicPhaseTrace topics accept workers).take (poolSize topics.length workers) =
      List.replicate (poolSize topics.length workers) PhaseEvent.startWorker ∧
    poolSize topics.length workers =
      if 1 < topics.length then min (topics.length / 2) workers else topics.length := by
  have hlen : 1 ≤ topics.length := by
    cases h : topics with
    | nil => rw [h] at hne; exact absurd rfl hne
    | cons a l => simp
  have hpool : 1 ≤ poolSize topics.length workers := by
    rw [poolSize]
    split
    · refine le_min (by omega) hw
    · omega
  refine ⟨?_, ?_, rfl⟩
  · have hgen : ∀ (l : List String) (w : Nat), 1 ≤ w → sendsComplete l w = true := by
      intro l w hw1
      induction l with
      | nil => rfl
      | cons a rest ih => rw [sendsComplete, if_neg (by omega)]; exact ih
    exact hgen _ _ hpool
  · rw [topicPhaseTrace]
    have h := List.take_left
      (List.replicate (poolSize topics.length workers) PhaseEvent.startWorker)
      ((topics.filter accept).map PhaseEvent.enqueue ++ [PhaseEvent.closeChan])
    rw [List.length_replicate] at h
    exact h

/-- C8 (amended, witness): three topics, all passing, two workers. -/
theorem topicPhase_terminates_witness :
    sendsComplete (["a", "b", "c"].filter (fun _ => true))
      (poolSize (["a", "b", "c"] : List String).length 2) = true :=
  (topicPhase_terminates ["a", "b", "c"] (fun _ => true) 2 (by decide) (by decide)).1

/-! ### Claim C2 -/

/-- C2: every `createOrUpdate` call recorded while processing a (group,
topic) block stores exactly the newest producer offset held in the
per-scrape offset map for that partition — not the consumer's committed
offset — and a call is made exactly for the error-free blocks whose
partition is present in the offset map. -/
theorem timelineUpdate_uses_newest (lookup : Int → Option Int) (g t : String)
    (blocks : List FetchBlock) :
    (∀ u ∈ (processBlocks lookup g t blocks).updates, lookup u.1 = some u.2) ∧
    (∀ fb ∈ blocks, fb.errOk = true → ∀ v, lookup fb.partition = some v →
        (fb.partition, v) ∈ (processBlocks lookup g t blocks).updates) := by
  induction blocks with
  | nil =>
    constructor
    · intro u hu
      simp [processBlocks] at hu
    · intro fb hfb
      simp at hfb
  | cons b rest ih =>
    constructor
    · intro u hu
      cases herr : b.errOk with
      | false =>
        simp only [processBlocks, herr, Bool.not_false, if_true] at hu
        exact ih.1 u hu
      | true =>
        cases hl : lookup b.partition with
        | none =>
          simp only [processBlocks, herr, Bool.not_true, if_false, hl] at hu
          exact ih.1 u hu
        | some newest =>
          simp only [processBlocks, herr, Bool.not_true, if_false, hl] at hu
          rcases List.mem_cons.mp hu with h | h
          · rw [h]
            exact hl
          · exact ih.1 u h
    · intro fb hfb hok v hv
      rcases List.mem_cons.mp hfb with heq | hmem
      · rw [heq] at hok hv ⊢
        simp only [processBlocks, hok, Bool.not_true, if_false, hv]
        exact List.mem_cons_self _ _
      · have hrec := ih.2 fb hmem hok v hv
        cases herr : b.errOk with
        | false =>
          simp only [processBlocks, herr, Bool.not_false, if_true]
          exact hrec
        | true =>
          cases hl : lookup b.partition with
          | none =>
            simp only [processBlocks, herr, Bool.not_true, if_false, hl]
            exact hrec
          | some newest =>
            simp only [processBlocks, herr, Bool.not_true, if_false, hl]
            exact List.mem_cons_of_mem _ hrec

/-- C2 (witness): a concrete block whose committed offset (42) differs
from the offset map's newest offset (100): the recorded timeline update
stores 100. -/
theorem timelineUpdate_uses_newest_witness :
    ((0 : Int), (100 : Int)) ∈
      (processBlocks (fun p => if p == 0 then some 100 else none) "g" "t"
        [⟨0, true, 42⟩]).updates :=
  (timelineUpdate_uses_newest (fun p => if p == 0 then some 100 else none) "g" "t"
    [⟨0, true, 42⟩]).2 ⟨0, true, 42⟩ (List.mem_singleton.mpr rfl) rfl 100 rfl

/-! ### Claim C6 -/

/-- C6: each emitted per-partition consumer-group lag metric equals
`newest − committed` when the committed offset is not −1 and equals −1
when it is; and the per-(group, topic) lag sum counts exactly the
error-free, offset-map-present partitions whose committed offset is not
−1 — a partition without a commit contributes nothing to the sum. -/
theorem consumergroupLag_values (lookup : Int → Option Int) (g t : String)
    (blocks : List FetchBlock) :
    (∀ p v, Metric.cgLag g t p v ∈ (processBlocks lookup g t blocks).emits →
        ∃ fb ∈ blocks, fb.partition = p ∧ fb.errOk = true ∧
          ∃ newest, lookup p = some newest ∧
            v = if fb.offset = -1 then -1 else newest - fb.offset) ∧
    (processBlocks lookup g t blocks).lagSum =
      ((blocks.filter (fun fb => fb.errOk && (lookup fb.partition).isSome &&
          !(fb.offset == -1))).map
        (fun fb => (lookup fb.partition).getD 0 - fb.offset)).sum := by
  induction blocks with
  | nil =>
    constructor
    · intro p v hv
      simp [processBlocks] at hv
    · rfl
  | cons b rest ih =>
    constructor
    · intro p v hv
      cases herr : b.errOk with
      | false =>
        simp only [processBlocks, herr, Bool.not_false, if_true] at hv
        obtain ⟨fb, hfb, hrest⟩ := ih.1 p v hv
        exact ⟨fb, List.mem_cons_of_mem _ hfb, hrest⟩
      | true =>
        cases hl : lookup b.partition with
        | none =>
          simp only [processBlocks, herr, Bool.not_true, if_false, hl] at hv
          rcases List.mem_cons.mp hv with h | h
          · exact absurd h (by simp)
          · obtain ⟨fb, hfb, hrest⟩ := ih.1 p v h
            exact ⟨fb, List.mem_cons_of_mem _ hfb, hrest⟩
        | some newest =>
          simp only [processBlocks, herr, Bool.not_true, if_false, hl] at hv
          rcases List.mem_cons.mp hv with h | h
          · exact absurd h (by simp)
          · rcases List.mem_cons.mp h with h2 | h2
            · have hp : b.partition = p := by
                have := (Metric.cgLag.injEq g t b.partition
                  (if b.offset = -1 then -1 else newest - b.offset) g t p v).mp h2.symm
                exact this.2.2.1
              have hval : v = if b.offset = -1 then -1 else newest - b.offset := by
                have := (Metric.cgLag.injEq g t b.partition
                  (if b.offset = -1 then -1 else newest - b.offset) g t p v).mp h2.symm
                exact this.2.2.2.symm
              refine ⟨b, List.mem_cons_self _ _, hp, herr, newest, ?_, hval⟩
              rw [← hp]
              exact hl
            · obtain ⟨fb, hfb, hrest⟩ := ih.1 p v h2
              exact ⟨fb, List.mem_cons_of_mem _ hfb, hrest⟩
    · cases herr : b.errOk with
      | false =>
        simp only [processBlocks, herr, Bool.not_false, if_true, List.filter_cons,
          Bool.false_and]
        exact ih.2
      | true =>
        cases hl : lookup b.partition with
        | none =>
          simp only [processBlocks, herr, Bool.not_true, if_false, hl, List.filter_cons,
            Option.isSome_none, Bool.and_false, Bool.false_and]
          exact ih.2
        | some newest =>
          by_cases hoff : b.offset = -1
          · simp only [processBlocks, herr, Bool.not_true, if_false, hl, if_pos hoff,
              List.filter_cons, hoff]
            simp only [Option.isSome_some, Bool.and_true, Bool.true_and]
            rw [ih.2]
            simp
          · simp only [processBlocks, herr, Bool.not_true, if_false, hl, if_neg hoff,
              List.filter_cons]
            have hbeq : (b.offset == (-1 : Int)) = false := by
              rw [beq_eq_false_iff_ne]
              exact hoff
            simp only [hbeq, hl, Option.isSome_some, Bool.and_true, Bool.true_and,
              Bool.not_false, if_true, List.map_cons, List.sum_cons, Option.getD_some]
            rw [ih.2]
            simp

/-- C6 (witness): two blocks, one committed at 40 (newest 100) and one
uncommitted (−1): the lag sum is 60, counting only the committed one. -/
theorem consumergroupLag_values_witness :
    (processBlocks (fun _ => some 100) "g" "t"
      [⟨0, true, 40⟩, ⟨1, true, -1⟩]).lagSum = 60 := by
  have h := (consumergroupLag_values (fun _ => some 100) "g" "t"
    [⟨0, true, 40⟩, ⟨1, true, -1⟩]).2
  rw [h]
  decide

/-! ### Claim C4 -/

/-- C4 (counterexample): when `client.Topics()` fails, the already-running
scrape *is* aborted (`exporter.go:399-403`): `collect` emits only the
broker metrics, although the same environment's lag pass would have
emitted two metrics and its topic data would have yielded eight — the
topic phase, broker fan-out and lag pass do not run. -/
theorem collect_topicsError_cex :
    collect abortedScrapeEnv = brokerPhase abortedScrapeEnv ∧
    (metricsForLagPass abortedScrapeEnv).length = 2 ∧
    (getTopicMetrics abortedScrapeEnv "t").length = 8 :=
  ⟨rfl, rfl, rfl⟩

/-- C4 (amended): apart from the initial topic-list fetch — whose failure
returns from `collect` after only the broker metrics — no RPC failure
aborts the scrape: with `Topics()` succeeding, all four phases run in
barrier order whatever the other results are; a broker whose connection
fails contributes no metrics and removing such a broker leaves the other
brokers' metrics unchanged; a topic whose `Partitions` call fails
contributes no metrics. -/
theorem collect_failure_isolation (env : ScrapeEnv) (ts : List String)
    (h : env.topicsResult = some ts) :
    collect env =
      brokerPhase env ++ topicPhase env ts ++ groupPhase env ts ++ metricsForLagPass env ∧
    (∀ envN : ScrapeEnv, envN.topicsResult = none → collect envN = brokerPhase envN) ∧
    (∀ b : BrokerData, b.openOk = false →
        getConsumerGroupMetrics env (buildOffsetMap env ts) b = []) ∧
    (∀ pre post : List BrokerData, ∀ bad : BrokerData, bad.openOk = false →
        (pre ++ bad :: post).flatMap (getConsumerGroupMetrics env (buildOffsetMap env ts)) =
          (pre ++ post).flatMap (getConsumerGroupMetrics env (buildOffsetMap env ts))) ∧
    (∀ t : String, env.partitionsOf t = none → getTopicMetrics env t = []) := by
  have hdead : ∀ b : BrokerData, b.openOk = false →
      getConsumerGroupMetrics env (buildOffsetMap env ts) b = [] := by
    intro b hb
    simp only [getConsumerGroupMetrics, hb, Bool.not_false, if_true]
  refine ⟨?_, ?_, hdead, ?_, ?_⟩
  · simp only [collect, h]
  · intro envN hN
    simp only [collect, hN]
  · intro pre post bad hb
    rw [List.flatMap_append, List.flatMap_append, List.flatMap_cons, hdead bad hb,
      List.nil_append]
  · intro t ht
    cases hacc : topicAccepted env t with
    | false => simp only [getTopicMetrics, hacc, Bool.not_false, if_true]
    | true =>
      simp only [getTopicMetrics, hacc, Bool.not_true, if_false, ht]
      simp

/-- C4 (amended, witness): the phase decomposition on a concrete healthy
environment. -/
theorem collect_failure_isolation_witness :
    collect healthyScrapeEnv =
      brokerPhase healthyScrapeEnv ++ topicPhase healthyScrapeEnv ["t"] ++
        groupPhase healthyScrapeEnv ["t"] ++ metricsForLagPass healthyScrapeEnv :=
  (collect_failure_isolation healthyScrapeEnv ["t"] rfl).1

/-! ### Claim C7 -/

lemma mem_optMetric {A : Type} {o : Option A} {f : A → Metric} {m : Metric}
    (h : m ∈ optMetric o f) : ∃ v, m = f v := by
  cases o with
  | none => exact absurd h (List.not_mem_nil m)
  | some v => exact ⟨v, List.mem_singleton.mp h⟩

lemma partitionMetrics_topicLabel (t : String) (pe : PartitionEntry) :
    ∀ m ∈ partitionMetrics t pe, m.topicLabel = some t := by
  intro m hm
  rw [partitionMetrics] at hm
  rcases List.mem_append.mp hm with h | hm
  · obtain ⟨v, rfl⟩ := mem_optMetric h; rfl
  rcases List.mem_append.mp hm with h | hm
  · obtain ⟨v, rfl⟩ := mem_optMetric h; rfl
  rcases List.mem_append.mp hm with h | hm
  · obtain ⟨v, rfl⟩ := mem_optMetric h; rfl
  rcases List.mem_append.mp hm with h | hm
  · obtain ⟨v, rfl⟩ := mem_optMetric h; rfl
  rcases List.mem_append.mp hm with h | hm
  · obtain ⟨v, rfl⟩ := mem_optMetric h; rfl
  rcases List.mem_cons.mp hm with h | hm
  · rw [h]; rfl
  rcases List.mem_cons.mp hm with h | hm
  · rw [h]; rfl
  · exact absurd hm (List.not_mem_nil m)

lemma getTopicMetrics_labels (env : ScrapeEnv) (t : String) :
    ∀ m ∈ getTopicMetrics env t, m.topicLabel = some t ∧ topicAccepted env t = true := by
  intro m hm
  cases hacc : topicAccepted env t with
  | false =>
    simp only [getTopicMetrics, hacc, Bool.not_false, if_true] at hm
    exact absurd hm (List.not_mem_nil m)
  | true =>
    simp only [getTopicMetrics, hacc, Bool.not_true, if_false] at hm
    cases hpart : env.partitionsOf t with
    | none =>
      rw [hpart] at hm
      exact absurd hm (List.not_mem_nil m)
    | some parts =>
      rw [hpart] at hm
      rcases List.mem_cons.mp hm with h | h
      · rw [h]; exact ⟨rfl, rfl⟩
      · obtain ⟨pe, _hpe, hmp⟩ := List.mem_flatMap.mp h
        exact ⟨partitionMetrics_topicLabel t pe m hmp, rfl⟩

lemma processBlocks_labels (lookup : Int → Option Int) (g t : String)
    (blocks : List FetchBlock) :
    ∀ m ∈ (processBlocks lookup g t blocks).emits,
      m.topicLabel = some t ∧ m.groupLabel = some g := by
  induction blocks with
  | nil => intro m hm; simp [processBlocks] at hm
  | cons b rest ih =>
    intro m hm
    cases herr : b.errOk with
    | false =>
      simp only [processBlocks, herr, Bool.not_false, if_true] at hm
      exact ih m hm
    | true =>
      cases hl : lookup b.partition with
      | none =>
        simp only [processBlocks, herr, Bool.not_true, if_false, hl] at hm
        rcases List.mem_cons.mp hm with h | h
        · rw [h]; exact ⟨rfl, rfl⟩
        · exact ih m h
      | some newest =>
        simp only [processBlocks, herr, Bool.not_true, if_false, hl] at hm
        rcases List.mem_cons.mp hm with h | h
        · rw [h]; exact ⟨rfl, rfl⟩
        rcases List.mem_cons.mp h with h2 | h2
        · rw [h2]; exact ⟨rfl, rfl⟩
        · exact ih m h2

lemma groupTopicBlocks_labels (env : ScrapeEnv) (omap : List (String × List (Int × Int)))
    (g : String) (l : List (String × List FetchBlock)) :
    ∀ m ∈ groupTopicBlocks env omap g l,
      m.groupLabel = some g ∧
        ∃ t, m.topicLabel = some t ∧ env.topicIncludeMatch t = true := by
  induction l with
  | nil => intro m hm; simp [groupTopicBlocks] at hm
  | cons p rest ih =>
    intro m hm
    obtain ⟨t, blocks⟩ := p
    cases hinc : env.topicIncludeMatch t with
    | false =>
      simp only [groupTopicBlocks, hinc, Bool.not_false, if_true] at hm
      exact ih m hm
    | true =>
      simp only [groupTopicBlocks, hinc, Bool.not_true, if_false] at hm
      cases hany : blocks.any (fun fb => !(fb.offset == -1)) with
      | false =>
        simp only [hany, Bool.not_false, if_true] at hm
        exact ih m hm
      | true =>
        simp only [hany, Bool.not_true, if_false] at hm
        rcases List.mem_append.mp hm with h | h
        · have hl := processBlocks_labels (fun q => offsetLookup omap t q) g t blocks m h
          exact ⟨hl.2, t, hl.1, hinc⟩
        rcases List.mem_cons.mp h with h2 | h2
        · rw [h2]; exact ⟨rfl, t, rfl, hinc⟩
        rcases List.mem_cons.mp h2 with h3 | h3
        · rw [h3]; exact ⟨rfl, t, rfl, hinc⟩
        · exact ih m h3

lemma processGroups_labels (env : ScrapeEnv) (omap : List (String × List (Int × Int)))
    (b : BrokerData) (gl : List (String × List GroupMember)) :
    ∀ m ∈ processGroups env omap b gl,
      (∃ g, m.groupLabel = some g ∧ g ∈ gl.map Prod.fst) ∧
        (∀ t, m.topicLabel = some t → env.topicIncludeMatch t = true) := by
  induction gl with
  | nil => intro m hm; simp [processGroups] at hm
  | cons p rest ih =>
    intro m hm
    obtain ⟨g, members⟩ := p
    cases habort : (!env.offsetShowAll && members.any (fun mb => mb.assignment.isNone)) with
    | true =>
      simp only [processGroups, habort, if_true] at hm
      exact absurd hm (List.not_mem_nil m)
    | false =>
      simp only [processGroups, habort, if_false] at hm
      rcases List.mem_cons.mp hm with h | h
      · constructor
        · exact ⟨g, by rw [h]; rfl, by simp⟩
        · intro t ht
          rw [h] at ht
          exact absurd ht (by simp [Metric.topicLabel])
      · rcases List.mem_append.mp h with h2 | h2
        · cases hfetch : b.fetchOffsetResult g with
          | none =>
            simp only [hfetch] at h2
            exact absurd h2 (List.not_mem_nil m)
          | some blocks =>
            simp only [hfetch] at h2
            obtain ⟨hg, t, ht, hinc⟩ := groupTopicBlocks_labels env omap g blocks m h2
            constructor
            · exact ⟨g, hg, by simp⟩
            · intro t' ht'
              have : t' = t := by
                rw [ht] at ht'
                exact (Option.some.inj ht').symm
              rw [this]
              exact hinc
        · obtain ⟨⟨g', hg', hmem⟩, htop⟩ := ih m h2
          refine ⟨⟨g', hg', ?_⟩, htop⟩
          simp only [List.map_cons]
          exact List.mem_cons_of_mem _ hmem

lemma getConsumerGroupMetrics_labels (env : ScrapeEnv)
    (omap : List (String × List (Int × Int))) (b : BrokerData) :
    ∀ m ∈ getConsumerGroupMetrics env omap b,
      (∀ g, m.groupLabel = some g →
          env.groupIncludeMatch g = true ∧ env.groupExcludeMatch g = false) ∧
      (∀ t, m.topicLabel = some t → env.topicIncludeMatch t = true) := by
  intro m hm
  cases hopen : b.openOk with
  | false =>
    simp only [getConsumerGroupMetrics, hopen, Bool.not_false, if_true] at hm
    exact absurd hm (List.not_mem_nil m)
  | true =>
    simp only [getConsumerGroupMetrics, hopen, Bool.not_true, if_false] at hm
    cases hlist : b.listGroupsResult with
    | none =>
      simp only [hlist] at hm
      exact absurd hm (List.not_mem_nil m)
    | some gids =>
      simp only [hlist] at hm
      cases hdesc : b.describeOk with
      | false =>
        simp only [hdesc, Bool.not_false, if_true] at hm
        exact absurd hm (List.not_mem_nil m)
      | true =>
        simp only [hdesc, Bool.not_true, if_false] at hm
        obtain ⟨⟨g, hg, hgmem⟩, htop⟩ := processGroups_labels env omap b _ m hm
        refine ⟨fun g' hg' => ?_, htop⟩
        have hgg' : g' = g := by
          rw [hg] at hg'
          exact (Option.some.inj hg').symm
        rw [hgg']
        obtain ⟨pr, hpr, hfst⟩ := List.mem_map.mp hgmem
        obtain ⟨g0, hg0, hfg⟩ := List.mem_filterMap.mp hpr
        cases hms : b.groupMembers g0 with
        | none =>
          rw [hms] at hfg
          exact absurd hfg (by simp)
        | some ms =>
          rw [hms] at hfg
          have hpr0 : pr = (g0, ms) := by
            have := Option.some.inj hfg
            rw [← this]
          have hg0g : g0 = g := by
            rw [hpr0] at hfst
            exact hfst
          have hfilt := (List.mem_filter.mp hg0).2
          rw [hg0g] at hfilt
          constructor
          · exact ((Bool.and_eq_true _ _).mp hfilt).1
          · have h2 := ((Bool.and_eq_true _ _).mp hfilt).2
            simpa using h2

/-- C7 (counterexample): the per-group offset blocks are filtered only by
the topic *include* regex (`exporter.go:613`); the exclude regex is not
consulted there.  With every topic included and `"bad"` also excluded,
the scrape still emits `kafka_consumergroup_current_offset` labelled with
topic `"bad"`, although `include("bad") ∧ ¬exclude("bad")` is false. -/
theorem filtering_cex :
    Metric.cgCurrentOffset "g" "bad" 0 5 ∈ collect filterHoleEnv ∧
    (filterHoleEnv.topicIncludeMatch "bad" && !filterHoleEnv.topicExcludeMatch "bad") = false :=
  ⟨by decide, by decide⟩

/-- C7 (amended): metrics of the topic phase are emitted only for topics
satisfying `include ∧ ¬exclude`; metrics of the consumer-group phase
apply only the include regex to their topic label, while their group
label satisfies `groupInclude ∧ ¬groupExclude`.  (Lag-pass metrics carry
labels taken from the timeline, which the emission code does not filter.) -/
theorem filtering_behavior (env : ScrapeEnv) (ts : List String) :
    (∀ m ∈ topicPhase env ts, ∀ t, m.topicLabel = some t →
        env.topicIncludeMatch t = true ∧ env.topicExcludeMatch t = false) ∧
    (∀ m ∈ groupPhase env ts, ∀ t, m.topicLabel = some t →
        env.topicIncludeMatch t = true) ∧
    (∀ m ∈ groupPhase env ts, ∀ g, m.groupLabel = some g →
        env.groupIncludeMatch g = true ∧ env.groupExcludeMatch g = false) := by
  refine ⟨?_, ?_, ?_⟩
  · intro m hm t ht
    obtain ⟨t0, _ht0, hmt⟩ := List.mem_flatMap.mp hm
    obtain ⟨hlab, hacc⟩ := getTopicMetrics_labels env t0 m hmt
    have htt : t = t0 := by
      rw [hlab] at ht
      exact (Option.some.inj ht).symm
    rw [htt]
    rw [topicAccepted] at hacc
    constructor
    · exact ((Bool.and_eq_true _ _).mp hacc).1
    · have h2 := ((Bool.and_eq_true _ _).mp hacc).2
      simpa using h2
  · intro m hm t ht
    obtain ⟨b, _hb, hmb⟩ := List.mem_flatMap.mp hm
    exact (getConsumerGroupMetrics_labels env _ b m hmb).2 t ht
  · intro m hm g hg
    obtain ⟨b, _hb, hmb⟩ := List.mem_flatMap.mp hm
    exact (getConsumerGroupMetrics_labels env _ b m hmb).1 g hg

/-- C7 (amended, witness): the group-filter conclusion applied to the
concrete `cgCurrentOffset` metric the counterexample environment emits. -/
theorem filtering_behavior_witness :
    filterHoleEnv.groupIncludeMatch "g" = true ∧
    filterHoleEnv.groupExcludeMatch "g" = false :=
  (filtering_behavior filterHoleEnv []).2.2 (Metric.cgCurrentOffset "g" "bad" 0 5)
    (by decide) "g" rfl

end KafkaExporter
